import Mathlib

/-!
Verification of the flambe experiment orchestrator core
(`src/flambe/experiment/experiment.py`) and the path utility
`rel_to_abs_paths` (`src/flambe/utils/path.py`).

The Python code is shallowly embedded: Python dicts become ordered
association lists (Python dicts preserve insertion order and have unique
keys), the ray substrate's observable effects (`ray.init`, remote stage
dispatch, `ray.wait`) are recorded in an event trace, and exceptions
become an explicit error result.  `Pipeline`, `Stage`, `Schema` and
`Environment` are repository code not present under `src/`; they are
modelled from the spec where noted.
-/

namespace Flambe

/-- Modelled from the spec: `flambe.compile.Schema` is not under `src/`.
Per §3 of the spec, a stage definition is a declarative schema that "may
reference other stages by name to form a dependency edge (a link)"; only
that list of referenced names is relevant to the scheduling core. -/
structure Schema where
  links : List String
deriving DecidableEq, Repr

/-- Modelled from the spec: `flambe.search.Algorithm` is not under `src/`
and is opaque to the scheduling core. -/
structure Algorithm where
deriving DecidableEq, Repr

/-- Modelled from the spec: `flambe.runner.runnable.Environment` is not
under `src/`.  Per §3 it is a read-only "(output path, debug flag)"
bundle; `Environment(self.save_path)` constructs it from the output path
alone, with the debug flag at its default (off). -/
structure Environment where
  output_path : String
  debug : Bool
deriving DecidableEq, Repr

/-- Remove duplicates keeping the first occurrence, accumulating the
names already seen. -/
def dedupAux : List String → List String → List String
  | [], _ => []
  | x :: xs, seen =>
    if x ∈ seen then dedupAux xs seen else x :: dedupAux xs (x :: seen)

/-- Modelled from the spec: `flambe.experiment.pipeline.Pipeline` is not
under `src/`.  Per §4.1, `subPipeline(name).dependencies` is the "ordered
set of dependency names referenced directly by `name`'s definition
(duplicates removed, first-seen order preserved)". -/
def subPipelineDependencies (s : Schema) : List String :=
  dedupAux s.links []

/-- Python dict lookup `d.get(k, None)` on a string-keyed dict. -/
def dictGet {β : Type} (d : List (String × β)) (k : String) : Option β :=
  match d with
  | [] => none
  | (k', v) :: rest => if k' = k then some v else dictGet rest k

/-- Python dict assignment `d[k] = v`: replace the binding if the key is
present, otherwise append it (insertion order is preserved). -/
def dictInsert {β : Type} (d : List (String × β)) (k : String) (v : β) :
    List (String × β) :=
  match d with
  | [] => [(k, v)]
  | (k', v') :: rest =>
    if k' = k then (k, v) :: rest else (k', v') :: dictInsert rest k v

/-- The `Experiment` object: fields as assigned by `Experiment.__init__`
(experiment.py lines 46-52). -/
structure Experiment where
  name : String
  save_path : String
  pipeline : List (String × Schema)
  algorithm : List (String × Algorithm)
  reduce : List (String × Nat)
  cpus_per_trial : List (String × Nat)
  gpus_per_trial : List (String × Nat)
deriving DecidableEq, Repr

/-- `Experiment.__init__` (experiment.py lines 14-52): `pipeline`,
`algorithm` and `reduce` default to an empty dict when `None`; the
`cpus_per_trial` and `gpus_per_trial` attributes are assigned `dict()`
unconditionally (lines 51-52) — the constructor arguments of the same
names are never read. -/
def Experiment.init (name : String) (save_path : String := "flambe_output")
    (pipeline : Option (List (String × Schema)) := none)
    (algorithm : Option (List (String × Algorithm)) := none)
    (reduce : Option (List (String × Nat)) := none)
    (cpus_per_trial : Option (List (String × Nat)) := none)
    (gpus_per_trial : Option (List (String × Nat)) := none) : Experiment :=
  { name := name
    save_path := save_path
    pipeline := pipeline.getD []
    algorithm := algorithm.getD []
    reduce := reduce.getD []
    cpus_per_trial := []
    gpus_per_trial := [] }

/-- Errors raised by `Experiment.run`.  The dict subscript
`stage_to_id[d]` (experiment.py line 75) raises Python's `KeyError` when
`d` is absent.  `unresolvedDependencyError` renders the distinct
`UnresolvedDependencyError` named by the spec's error taxonomy (§7); no
such class exists anywhere under `src/` and the embedded code never
produces it, but the constructor is needed to state claims that mention
it. -/
inductive RunError where
  | keyError (missing : String)
  | unresolvedDependencyError (missing : String)
deriving DecidableEq, Repr

/-- The arguments of one remote stage dispatch
(`ray.remote(Stage).remote(...)` followed by `stage.run.remote()`,
experiment.py lines 78-89): the stage name, the object ids of its
dependencies, and the per-stage reduction / cpu / gpu lookups. -/
structure DispatchCall where
  name : String
  dependencyIds : List Nat
  reductions : Option Nat
  cpus : Option Nat
  gpus : Option Nat
deriving DecidableEq, Repr

/-- Observable effects of `Experiment.run` on the ray substrate:
substrate bring-up (`ray.init`, line 66), a remote stage dispatch
(lines 78-89), and the completion barrier `ray.wait(ids, num_returns)`
(line 95). -/
inductive Event where
  | rayInit (debug : Bool)
  | dispatch (call : DispatchCall)
  | wait (ids : List Nat) (numReturns : Nat)
deriving DecidableEq, Repr

/-- Scheduler state threaded through the dispatch loop: the
`stage_to_id` table, the next fresh object id, and the effect trace so
far. -/
structure SchedState where
  table : List (String × Nat)
  next : Nat
  trace : List Event
deriving DecidableEq, Repr

/-- The list comprehension `[stage_to_id[d] for d in
sub_pipeline.dependencies]` (experiment.py line 75): resolve each
dependency name left to right, raising `KeyError` at the first name
absent from the table. -/
def resolveDeps (table : List (String × Nat)) :
    List String → Except RunError (List Nat)
  | [] => .ok []
  | d :: ds =>
    match dictGet table d with
    | none => .error (.keyError d)
    | some h =>
      match resolveDeps table ds with
      | .error e => .error e
      | .ok hs => .ok (h :: hs)

/-- The dispatch loop of `Experiment.run` (experiment.py lines 72-91):
for each `(name, schema)` in pipeline order, resolve the dependencies to
object ids, dispatch the stage remotely (recorded as a `dispatch` event
carrying the arguments of lines 80-89), and store the fresh object id in
`stage_to_id`.  Stops at the first raised error. -/
def runLoop (reduce cpus gpus : List (String × Nat)) :
    List (String × Schema) → SchedState → SchedState × Except RunError Unit
  | [], st => (st, .ok ())
  | (name, schema) :: rest, st =>
    match resolveDeps st.table (subPipelineDependencies schema) with
    | .error e => (st, .error e)
    | .ok ids =>
      let call : DispatchCall :=
        { name := name
          dependencyIds := ids
          reductions := dictGet reduce name
          cpus := dictGet cpus name
          gpus := dictGet gpus name }
      runLoop reduce cpus gpus rest
        { table := dictInsert st.table name st.next
          next := st.next + 1
          trace := st.trace ++ [.dispatch call] }

/-- What a call of `Experiment.run` produces: the effect trace, the
final `stage_to_id` table, the outcome (`run` has no return value, so
success carries no data; an error is the raised exception), and the
`self` object after the call (the method body never assigns to any
attribute of `self`). -/
structure RunResult where
  trace : List Event
  table : List (String × Nat)
  result : Except RunError Unit
  selfAfter : Experiment
deriving Repr

/-- `Experiment.run` (experiment.py lines 54-95), shallowly embedded.
`rayInitialized` is the substrate's process-wide state `ray.is_initialized()`
at entry; `outcomes` maps each object id to the eventual result of that
stage's asynchronous work.  Line 95's `ray.wait(stage_to_id.values(),
num_returns=len(stage_to_id))` blocks until all ids resolve and returns
a (ready, not-ready) partition; the call's value is discarded and
`ray.get` is never called, so `outcomes` influences nothing the caller
observes — it is a parameter precisely so that this independence is a
statable property. -/
def Experiment.run (exp : Experiment) (envOpt : Option Environment)
    (rayInitialized : Bool) (outcomes : Nat → Except String Unit) :
    RunResult :=
  let env := envOpt.getD ⟨exp.save_path, false⟩
  let trace0 : List Event :=
    if rayInitialized then [] else [.rayInit env.debug]
  let (st, res) :=
    runLoop exp.reduce exp.cpus_per_trial exp.gpus_per_trial exp.pipeline
      ⟨[], 0, trace0⟩
  match res with
  | .error e => ⟨st.trace, st.table, .error e, exp⟩
  | .ok () =>
    ⟨st.trace ++ [.wait (st.table.map Prod.snd) st.table.length],
     st.table, .ok (), exp⟩

/-- Modelled filesystem oracle for `flambe.utils.path`: `os.path.exists`,
`os.path.isabs` and `os.path.abspath` as uninterpreted functions on path
strings. -/
structure FileSystem where
  pathExists : String → Bool
  isabs : String → Bool
  abspath : String → String

/-- `rel_to_abs_paths` (path.py lines 18-37): copy the dict, then for
each entry whose value names an existing, non-absolute path, replace the
value with its absolute form.  Each key is visited once and only its own
value is reassigned, so the loop is a pointwise map over the copy; the
argument dict itself is never written. -/
def rel_to_abs_paths (fs : FileSystem) (d : List (String × String)) :
    List (String × String) :=
  d.map (fun kv =>
    if fs.pathExists kv.2 && !fs.isabs kv.2 then (kv.1, fs.abspath kv.2)
    else kv)

/-- Stage names of a pipeline in declaration order. -/
def stageNames (p : List (String × Schema)) : List String :=
  p.map Prod.fst

/-- Declaration order is a valid topological order: every stage's
immediate dependencies occur among `seen` (the names declared before
it). -/
def topoOk (seen : List String) : List (String × Schema) → Bool
  | [] => true
  | (name, schema) :: rest =>
    (subPipelineDependencies schema).all (fun d => decide (d ∈ seen)) &&
      topoOk (seen ++ [name]) rest

/-- Index of the first occurrence of a name in a list (length of the
list when absent). -/
def indexOfStr : List String → String → Nat
  | [], _ => 0
  | x :: xs, d => if x = d then 0 else indexOfStr xs d + 1

/-- Pair each name with its position, starting from `k`. -/
def withIdx : List String → Nat → List (String × Nat)
  | [], _ => []
  | x :: xs, k => (x, k) :: withIdx xs (k + 1)

/-- The dispatch call the scheduler makes for stage `name` with schema
`schema`, with dependency handles written as positions in the full
declaration-order name list. -/
def globalCall (reduce cpus gpus : List (String × Nat)) (names : List String)
    (name : String) (schema : Schema) : DispatchCall :=
  { name := name
    dependencyIds := (subPipelineDependencies schema).map (indexOfStr names)
    reductions := dictGet reduce name
    cpus := dictGet cpus name
    gpus := dictGet gpus name }

/-- The dispatch events the loop emits for `rest`, given that the names
in `seen` were dispatched before: each dependency handle is the position
of the dependency in the name list seen at that point. -/
def expectedEvents (reduce cpus gpus : List (String × Nat)) :
    List String → List (String × Schema) → List Event
  | _, [] => []
  | seen, (name, schema) :: rest =>
    .dispatch
        { name := name
          dependencyIds := (subPipelineDependencies schema).map (indexOfStr seen)
          reductions := dictGet reduce name
          cpus := dictGet cpus name
          gpus := dictGet gpus name }
      :: expectedEvents reduce cpus gpus (seen ++ [name]) rest

/-- Is the event a completion-barrier wait? -/
def isWaitEv : Event → Bool
  | .wait _ _ => true
  | _ => false

/-- Is the event a stage dispatch? -/
def isDispatchEv : Event → Bool
  | .dispatch _ => true
  | _ => false

/-- Is the event a substrate bring-up? -/
def isRayInitEv : Event → Bool
  | .rayInit _ => true
  | _ => false

/-- No completion-barrier wait occurs in the trace. -/
def noWaitEv (l : List Event) : Bool :=
  l.all (fun e => !isWaitEv e)

/-- Every event except possibly the final one is not a wait: the trace
suspends at most once, and only as its very last action. -/
def waitOnlyLast : List Event → Bool
  | [] => true
  | [_] => true
  | e :: rest => !isWaitEv e && waitOnlyLast rest

/-- Does the result carry the spec's `UnresolvedDependencyError`? -/
def isUnresolvedErr : Except RunError Unit → Bool
  | .error (.unresolvedDependencyError _) => true
  | _ => false

theorem withIdx_fst (l : List String) (k : Nat) :
    (withIdx l k).map Prod.fst = l := by
  induction l generalizing k with
  | nil => rfl
  | cons x xs ih => simp [withIdx, ih]

theorem withIdx_snd (l : List String) (k : Nat) :
    (withIdx l k).map Prod.snd = List.range' k l.length := by
  induction l generalizing k with
  | nil => rfl
  | cons x xs ih => simp [withIdx, ih, List.range'_succ]

theorem withIdx_append (a b : List String) (k : Nat) :
    withIdx (a ++ b) k = withIdx a k ++ withIdx b (k + a.length) := by
  induction a generalizing k with
  | nil => simp [withIdx]
  | cons x xs ih =>
    have h : k + 1 + xs.length = k + (xs.length + 1) := by omega
    simp [withIdx, ih, h]

theorem dictGet_withIdx_mem (seen : List String) (d : String) (k : Nat)
    (hd : d ∈ seen) :
    dictGet (withIdx seen k) d = some (k + indexOfStr seen d) := by
  induction seen generalizing k with
  | nil => cases hd
  | cons x xs ih =>
    by_cases hx : x = d
    · subst hx; simp [withIdx, dictGet, indexOfStr]
    · have hd' : d ∈ xs := by
        cases hd with
        | head => exact absurd rfl hx
        | tail _ h => exact h
      have h : k + 1 + indexOfStr xs d = k + (indexOfStr xs d + 1) := by omega
      simp [withIdx, dictGet, indexOfStr, hx, ih _ hd', h]

theorem dictGet_withIdx_not_mem (seen : List String) (d : String) (k : Nat)
    (hd : d ∉ seen) :
    dictGet (withIdx seen k) d = none := by
  induction seen generalizing k with
  | nil => rfl
  | cons x xs ih =>
    have hx : x ≠ d := fun h => hd (h ▸ List.mem_cons_self x xs)
    have hd' : d ∉ xs := fun h => hd (List.mem_cons_of_mem x h)
    simp [withIdx, dictGet, hx, ih _ hd']

theorem indexOfStr_lt_length (l : List String) (d : String) (hd : d ∈ l) :
    indexOfStr l d < l.length := by
  induction l with
  | nil => cases hd
  | cons x xs ih =>
    by_cases hx : x = d
    · simp [indexOfStr, hx]
    · have hd' : d ∈ xs := by
        cases hd with
        | head => exact absurd rfl hx
        | tail _ h => exact h
      simp only [indexOfStr, hx, if_false, List.length_cons]
      exact Nat.succ_lt_succ (ih hd')

theorem indexOfStr_append_left (a b : List String) (d : String) (hd : d ∈ a) :
    indexOfStr (a ++ b) d = indexOfStr a d := by
  induction a with
  | nil => cases hd
  | cons x xs ih =>
    by_cases hx : x = d
    · simp [indexOfStr, hx]
    · have hd' : d ∈ xs := by
        cases hd with
        | head => exact absurd rfl hx
        | tail _ h => exact h
      simp [indexOfStr, hx, ih hd']

theorem indexOfStr_append_right (a b : List String) (d : String)
    (hd : d ∉ a) :
    indexOfStr (a ++ b) d = a.length + indexOfStr b d := by
  induction a with
  | nil => simp [indexOfStr]
  | cons x xs ih =>
    have hx : x ≠ d := fun h => hd (h ▸ List.mem_cons_self x xs)
    have hd' : d ∉ xs := fun h => hd (List.mem_cons_of_mem x h)
    rw [List.cons_append]
    simp only [indexOfStr, hx, if_false]
    rw [ih hd']
    simp only [List.length_cons]
    omega

theorem indexOfStr_get (l : List String) (hnd : l.Nodup) (k : Nat)
    (hk : k < l.length) :
    indexOfStr l (l.get ⟨k, hk⟩) = k := by
  induction l generalizing k with
  | nil => cases hk
  | cons x xs ih =>
    cases k with
    | zero => simp [indexOfStr]
    | succ k =>
      have hk' : k < xs.length := Nat.lt_of_succ_lt_succ hk
      have hmem : xs.get ⟨k, hk'⟩ ∈ xs := List.get_mem _ _ _
      have hx : x ≠ xs.get ⟨k, hk'⟩ := by
        intro h
        exact (List.nodup_cons.mp hnd).1 (h ▸ hmem)
      have ih' := ih (List.nodup_cons.mp hnd).2 k hk'
      simp only [List.get_eq_getElem] at hx ih'
      simp [indexOfStr, List.get, hx, ih']

theorem indexOfStr_lt_of_mem_take (l : List String) (d : String) (k : Nat)
    (hd : d ∈ l.take k) :
    indexOfStr l d < k := by
  have h1 : indexOfStr l d = indexOfStr (l.take k) d := by
    conv_lhs => rw [← List.take_append_drop k l]
    exact indexOfStr_append_left _ _ _ hd
  calc indexOfStr l d = indexOfStr (l.take k) d := h1
    _ < (l.take k).length := indexOfStr_lt_length _ _ hd
    _ ≤ k := by simp [List.length_take]

theorem dictInsert_fresh {β : Type} (d : List (String × β)) (k : String)
    (v : β) (h : k ∉ d.map Prod.fst) :
    dictInsert d k v = d ++ [(k, v)] := by
  induction d with
  | nil => rfl
  | cons p rest ih =>
    have hp : p.1 ≠ k := by
      intro he
      exact h (by simp [he])
    have h' : k ∉ rest.map Prod.fst := by
      intro hm
      exact h (by simp [hm])
    cases p
    simp [dictInsert, hp, ih h']

theorem resolveDeps_ok (seen : List String) (ds : List String)
    (h : ∀ d ∈ ds, d ∈ seen) :
    resolveDeps (withIdx seen 0) ds = .ok (ds.map (indexOfStr seen)) := by
  induction ds with
  | nil => rfl
  | cons d ds ih =>
    have hd : d ∈ seen := h d (List.mem_cons_self d ds)
    have := ih (fun x hx => h x (List.mem_cons_of_mem d hx))
    simp [resolveDeps, dictGet_withIdx_mem seen d 0 hd, this]

theorem resolveDeps_err (seen : List String) (ds : List String)
    (h : ¬ ∀ d ∈ ds, d ∈ seen) :
    ∃ d, d ∈ ds ∧ d ∉ seen ∧
      resolveDeps (withIdx seen 0) ds = .error (.keyError d) := by
  induction ds with
  | nil => exact absurd (by intro d hd; cases hd) h
  | cons d ds ih =>
    by_cases hd : d ∈ seen
    · have h' : ¬ ∀ x ∈ ds, x ∈ seen := by
        intro hh
        exact h (by
          intro x hx
          cases hx with
          | head => exact hd
          | tail _ hx' => exact hh x hx')
      obtain ⟨e, he, hne, heq⟩ := ih h'
      exact ⟨e, List.mem_cons_of_mem d he, hne, by
        simp [resolveDeps, dictGet_withIdx_mem seen d 0 hd, heq]⟩
    · exact ⟨d, List.mem_cons_self d ds, hd, by
        simp [resolveDeps, dictGet_withIdx_not_mem seen d 0 hd]⟩

theorem topoOk_cons (seen : List String) (name : String) (schema : Schema)
    (rest : List (String × Schema)) :
    topoOk seen ((name, schema) :: rest) = true ↔
      (∀ d ∈ subPipelineDependencies schema, d ∈ seen) ∧
        topoOk (seen ++ [name]) rest = true := by
  simp [topoOk, List.all_eq_true]

theorem runLoop_topo_char (reduce cpus gpus : List (String × Nat))
    (rest : List (String × Schema)) (seen : List String) (st : SchedState)
    (htab : st.table = withIdx seen 0) (hnext : st.next = seen.length)
    (hnodup : (seen ++ stageNames rest).Nodup)
    (htopo : topoOk seen rest = true) :
    runLoop reduce cpus gpus rest st =
      ({ table := withIdx (seen ++ stageNames rest) 0
         next := seen.length + rest.length
         trace := st.trace ++ expectedEvents reduce cpus gpus seen rest },
       .ok ()) := by
  induction rest generalizing seen st with
  | nil =>
    cases st
    simp_all [runLoop, stageNames, expectedEvents]
  | cons p rest ih =>
    obtain ⟨name, schema⟩ := p
    obtain ⟨hdeps, htopo'⟩ := (topoOk_cons seen name schema rest).mp htopo
    have hres : resolveDeps st.table (subPipelineDependencies schema) =
        .ok ((subPipelineDependencies schema).map (indexOfStr seen)) := by
      rw [htab]; exact resolveDeps_ok seen _ hdeps
    have hname : name ∉ seen := by
      intro hmem
      have hdis := (List.nodup_append.mp hnodup).2.2
      exact hdis hmem (by simp [stageNames])
    have hins : dictInsert st.table name st.next =
        withIdx (seen ++ [name]) 0 := by
      rw [htab, hnext, dictInsert_fresh _ _ _ (by rw [withIdx_fst]; exact hname),
        withIdx_append]
      simp [withIdx]
    have hcast : seen ++ stageNames ((name, schema) :: rest) =
        (seen ++ [name]) ++ stageNames rest := by
      simp [stageNames]
    have hnodup' : ((seen ++ [name]) ++ stageNames rest).Nodup := by
      rw [← hcast]
      simpa [stageNames] using hnodup
    have := ih (seen ++ [name])
      { table := dictInsert st.table name st.next
        next := st.next + 1
        trace := st.trace ++
          [.dispatch
            { name := name
              dependencyIds := (subPipelineDependencies schema).map (indexOfStr seen)
              reductions := dictGet reduce name
              cpus := dictGet cpus name
              gpus := dictGet gpus name }] }
      hins (by simp [hnext]) hnodup' htopo'
    simp only [runLoop, hres, this, Prod.mk.injEq, SchedState.mk.injEq]
    refine ⟨⟨?_, ?_, ?_⟩, trivial⟩
    · rw [hcast]
    · simp only [List.length_append, List.length_cons, List.length_nil,
        stageNames, List.map_cons]
      omega
    · simp [expectedEvents, List.append_assoc]

theorem runLoop_topo_bad (reduce cpus gpus : List (String × Nat))
    (rest : List (String × Schema)) (seen : List String) (st : SchedState)
    (htab : st.table = withIdx seen 0) (hnext : st.next = seen.length)
    (hnodup : (seen ++ stageNames rest).Nodup)
    (htopo : topoOk seen rest = false) :
    ∃ k, ∃ hk : k < rest.length, ∃ d,
      d ∈ subPipelineDependencies (rest.get ⟨k, hk⟩).2 ∧
      d ∉ seen ++ stageNames (rest.take k) ∧
      runLoop reduce cpus gpus rest st =
        ({ table := withIdx (seen ++ stageNames (rest.take k)) 0
           next := seen.length + k
           trace := st.trace ++ expectedEvents reduce cpus gpus seen (rest.take k) },
         .error (.keyError d)) := by
  induction rest generalizing seen st with
  | nil => simp [topoOk] at htopo
  | cons p rest ih =>
    obtain ⟨name, schema⟩ := p
    by_cases hdeps : ∀ d ∈ subPipelineDependencies schema, d ∈ seen
    · have htopo' : topoOk (seen ++ [name]) rest = false := by
        by_contra hc
        rw [Bool.not_eq_false] at hc
        rw [(topoOk_cons seen name schema rest).mpr ⟨hdeps, hc⟩] at htopo
        cases htopo
      have hres : resolveDeps st.table (subPipelineDependencies schema) =
          .ok ((subPipelineDependencies schema).map (indexOfStr seen)) := by
        rw [htab]; exact resolveDeps_ok seen _ hdeps
      have hname : name ∉ seen := by
        intro hmem
        have hdis := (List.nodup_append.mp hnodup).2.2
        exact hdis hmem (by simp [stageNames])
      have hins : dictInsert st.table name st.next =
          withIdx (seen ++ [name]) 0 := by
        rw [htab, hnext, dictInsert_fresh _ _ _ (by rw [withIdx_fst]; exact hname),
          withIdx_append]
        simp [withIdx]
      have hcast : seen ++ stageNames ((name, schema) :: rest) =
          (seen ++ [name]) ++ stageNames rest := by
        simp [stageNames]
      have hnodup' : ((seen ++ [name]) ++ stageNames rest).Nodup := by
        rw [← hcast]
        simpa [stageNames] using hnodup
      obtain ⟨k, hk, d, hd1, hd2, heq⟩ := ih (seen ++ [name])
        { table := dictInsert st.table name st.next
          next := st.next + 1
          trace := st.trace ++
            [.dispatch
              { name := name
                dependencyIds := (subPipelineDependencies schema).map (indexOfStr seen)
                reductions := dictGet reduce name
                cpus := dictGet cpus name
                gpus := dictGet gpus name }] }
        hins (by simp [hnext]) hnodup' htopo'
      refine ⟨k + 1, by simpa using Nat.succ_lt_succ hk, d, ?_, ?_, ?_⟩
      · simpa using hd1
      · simpa [stageNames, List.append_assoc] using hd2
      · simp only [runLoop, hres, heq, Prod.mk.injEq, SchedState.mk.injEq]
        refine ⟨⟨?_, ?_, ?_⟩, trivial⟩
        · simp [stageNames, List.append_assoc]
        · simp only [List.length_append, List.length_cons, List.length_nil]
          omega
        · simp [expectedEvents, List.append_assoc]
    · obtain ⟨d, hdm, hdn, herr⟩ := resolveDeps_err seen _ hdeps
      refine ⟨0, by simp, d, by simpa using hdm, by simpa [stageNames] using hdn, ?_⟩
      cases st
      simp_all [runLoop, expectedEvents, stageNames]

theorem expectedEvents_eq_global (reduce cpus gpus : List (String × Nat))
    (rest : List (String × Schema)) (seen : List String)
    (htopo : topoOk seen rest = true) :
    expectedEvents reduce cpus gpus seen rest =
      rest.map (fun p =>
        .dispatch (globalCall reduce cpus gpus (seen ++ stageNames rest) p.1 p.2)) := by
  induction rest generalizing seen with
  | nil => rfl
  | cons p rest ih =>
    obtain ⟨name, schema⟩ := p
    obtain ⟨hdeps, htopo'⟩ := (topoOk_cons seen name schema rest).mp htopo
    have hcast : seen ++ stageNames ((name, schema) :: rest) =
        (seen ++ [name]) ++ stageNames rest := by
      simp [stageNames]
    rw [expectedEvents, List.map_cons, ih (seen ++ [name]) htopo', hcast]
    congr 1
    simp only [Event.dispatch.injEq, globalCall, DispatchCall.mk.injEq,
      true_and, and_true]
    refine List.map_congr_left ?_
    intro d hd
    rw [List.append_assoc]
    exact (indexOfStr_append_left seen _ d (hdeps d hd)).symm

theorem topoOk_deps_take (rest : List (String × Schema)) (seen : List String)
    (htopo : topoOk seen rest = true) :
    ∀ k, ∀ hk : k < rest.length,
      ∀ d ∈ subPipelineDependencies (rest.get ⟨k, hk⟩).2,
        d ∈ seen ++ stageNames (rest.take k) := by
  induction rest generalizing seen with
  | nil => intro k hk; cases hk
  | cons p rest ih =>
    obtain ⟨name, schema⟩ := p
    obtain ⟨hdeps, htopo'⟩ := (topoOk_cons seen name schema rest).mp htopo
    intro k hk d hd
    cases k with
    | zero => simpa [stageNames] using hdeps d (by simpa using hd)
    | succ k =>
      have := ih (seen ++ [name]) htopo' k (Nat.lt_of_succ_lt_succ hk) d
        (by simpa using hd)
      simpa [stageNames, List.append_assoc] using this

theorem runLoop_trace_events (reduce cpus gpus : List (String × Nat))
    (rest : List (String × Schema)) (st : SchedState) :
    ∃ es : List Event,
      (runLoop reduce cpus gpus rest st).1.trace = st.trace ++ es ∧
        ∀ e ∈ es, isDispatchEv e = true := by
  induction rest generalizing st with
  | nil => exact ⟨[], by simp [runLoop], by simp⟩
  | cons p rest ih =>
    obtain ⟨name, schema⟩ := p
    cases hres : resolveDeps st.table (subPipelineDependencies schema) with
    | error e => exact ⟨[], by simp [runLoop, hres], by simp⟩
    | ok ids =>
      obtain ⟨es, h1, h2⟩ := ih
        { table := dictInsert st.table name st.next
          next := st.next + 1
          trace := st.trace ++
            [.dispatch
              { name := name
                dependencyIds := ids
                reductions := dictGet reduce name
                cpus := dictGet cpus name
                gpus := dictGet gpus name }] }
      refine ⟨.dispatch
          { name := name
            dependencyIds := ids
            reductions := dictGet reduce name
            cpus := dictGet cpus name
            gpus := dictGet gpus name } :: es, ?_, ?_⟩
      · simp only [runLoop, hres, h1]
        simp [List.append_assoc]
      · intro e he
        cases he with
        | head => rfl
        | tail _ h => exact h2 e h

theorem withIdx_length (l : List String) (k : Nat) :
    (withIdx l k).length = l.length := by
  induction l generalizing k with
  | nil => rfl
  | cons x xs ih => simp [withIdx, ih]

theorem withIdx_snd_zero (l : List String) :
    (withIdx l 0).map Prod.snd = List.range l.length := by
  rw [withIdx_snd, List.range_eq_range']

theorem expectedEvents_all_dispatch (reduce cpus gpus : List (String × Nat))
    (seen : List String) (rest : List (String × Schema)) :
    ∀ e ∈ expectedEvents reduce cpus gpus seen rest, isDispatchEv e = true := by
  induction rest generalizing seen with
  | nil => intro e he; cases he
  | cons p rest ih =>
    obtain ⟨name, schema⟩ := p
    intro e he
    cases he with
    | head => rfl
    | tail _ h => exact ih (seen ++ [name]) e h

theorem not_wait_of_dispatch (e : Event) (h : isDispatchEv e = true) :
    isWaitEv e = false := by
  cases e <;> simp_all [isDispatchEv, isWaitEv]

theorem not_rayInit_of_dispatch (e : Event) (h : isDispatchEv e = true) :
    isRayInitEv e = false := by
  cases e <;> simp_all [isDispatchEv, isRayInitEv]

theorem waitOnlyLast_of_no_wait (l : List Event)
    (h : ∀ e ∈ l, isWaitEv e = false) : waitOnlyLast l = true := by
  induction l with
  | nil => rfl
  | cons x xs ih =>
    cases xs with
    | nil => rfl
    | cons y ys =>
      have h1 : isWaitEv x = false := h x (List.mem_cons_self _ _)
      have h2 : waitOnlyLast (y :: ys) = true :=
        ih (fun e he => h e (List.mem_cons_of_mem _ he))
      simp [waitOnlyLast, h1, h2]

theorem waitOnlyLast_append_single (l : List Event) (e : Event)
    (h : ∀ x ∈ l, isWaitEv x = false) : waitOnlyLast (l ++ [e]) = true := by
  induction l with
  | nil => rfl
  | cons x xs ih =>
    have h1 : isWaitEv x = false := h x (List.mem_cons_self _ _)
    have h2 := ih (fun y hy => h y (List.mem_cons_of_mem _ hy))
    have hne : (xs ++ [e]).isEmpty = false := by
      cases xs <;> rfl
    simp [waitOnlyLast, hne, h1, h2]

theorem run_loop_ok_bridge (exp : Experiment) (envOpt : Option Environment)
    (ri : Bool) (o : Nat → Except String Unit) (st : SchedState)
    (h : runLoop exp.reduce exp.cpus_per_trial exp.gpus_per_trial exp.pipeline
      { table := [], next := 0,
        trace := if ri then [] else
          [.rayInit ((envOpt.getD ⟨exp.save_path, false⟩).debug)] } =
      (st, .ok ())) :
    exp.run envOpt ri o =
      ⟨st.trace ++ [.wait (st.table.map Prod.snd) st.table.length],
       st.table, .ok (), exp⟩ := by
  simp only [Experiment.run]
  rw [h]

theorem run_loop_err_bridge (exp : Experiment) (envOpt : Option Environment)
    (ri : Bool) (o : Nat → Except String Unit) (st : SchedState)
    (e : RunError)
    (h : runLoop exp.reduce exp.cpus_per_trial exp.gpus_per_trial exp.pipeline
      { table := [], next := 0,
        trace := if ri then [] else
          [.rayInit ((envOpt.getD ⟨exp.save_path, false⟩).debug)] } =
      (st, .error e)) :
    exp.run envOpt ri o = ⟨st.trace, st.table, .error e, exp⟩ := by
  simp only [Experiment.run]
  rw [h]

theorem noWaitEv_append (l1 l2 : List Event) :
    noWaitEv (l1 ++ l2) = (noWaitEv l1 && noWaitEv l2) :=
  List.all_append

theorem noWaitEv_expectedEvents (reduce cpus gpus : List (String × Nat))
    (seen : List String) (rest : List (String × Schema)) :
    noWaitEv (expectedEvents reduce cpus gpus seen rest) = true := by
  rw [noWaitEv, List.all_eq_true]
  intro e he
  simp [not_wait_of_dispatch e (expectedEvents_all_dispatch _ _ _ _ _ e he)]

theorem noWaitEv_initTrace (b : Bool) (dbg : Bool) :
    noWaitEv (if b then [] else [Event.rayInit dbg]) = true := by
  cases b <;> rfl

/-- Outcome assignment under which every stage's asynchronous work
succeeds. -/
def okOutcomes : Nat → Except String Unit := fun _ => .ok ()

/-- Outcome assignment under which every stage's asynchronous work fails
with a `StageExecutionError`. -/
def failOutcomes : Nat → Except String Unit :=
  fun _ => .error "StageExecutionError"

/-- Single-stage experiment constructed with explicit per-stage resource
maps `cpus_per_trial = a: 2` and `gpus_per_trial = a: 1`. -/
def expResources : Experiment :=
  Experiment.init "exp" "out" (some [("a", ⟨[]⟩)]) none none
    (some [("a", 2)]) (some [("a", 1)])

/-- Single-stage experiment whose only stage is `F`. -/
def expFail : Experiment := Experiment.init "exp" "out" (some [("F", ⟨[]⟩)])

/-- Two-stage pipeline declared in the order `[X, Y]` although `X`
depends on `Y`. -/
def expXY : Experiment :=
  Experiment.init "exp" "out" (some [("X", ⟨["Y"]⟩), ("Y", ⟨[]⟩)])

/-- Valid three-stage pipeline `A; B -> A; C -> A, B` with a reduction
entry for `B`. -/
def expABC : Experiment :=
  Experiment.init "exp" "out"
    (some [("A", ⟨[]⟩), ("B", ⟨["A"]⟩), ("C", ⟨["A", "B"]⟩)]) none
    (some [("B", 2)]) none none

/-- C1: the claim fails on the code and the code contradicts its own
docstring.  `expResources` is constructed with `cpus_per_trial = a: 2`
and `gpus_per_trial = a: 1`, yet both attributes are stored empty
(`__init__` assigns `dict()` unconditionally on lines 51-52, never
reading the arguments), so the dispatch call for stage `a` receives
`None` for both resource counts instead of the requested 2 and 1. -/
theorem resource_request_dropped :
    expResources.cpus_per_trial = [] ∧
    expResources.gpus_per_trial = [] ∧
    (expResources.run none true okOutcomes).trace =
      [.dispatch { name := "a", dependencyIds := [], reductions := none,
                   cpus := none, gpus := none },
       .wait [0] 1] :=
  ⟨rfl, rfl, rfl⟩

/-- C2: the claim fails on the code.  With stage `F`'s asynchronous work
resolving to an error (`failOutcomes`), `run()` still finishes with a
plain success carrying no error information, and its entire observable
behaviour is independent of the stages' outcomes: line 95 discards the
value of `ray.wait` and `ray.get` is never called, so the failure is
silently dropped. -/
theorem stage_failure_silently_dropped :
    (expFail.run none true failOutcomes).result = .ok () ∧
    (expFail.run none true failOutcomes).trace =
      [.dispatch { name := "F", dependencyIds := [], reductions := none,
                   cpus := none, gpus := none },
       .wait [0] 1] ∧
    ∀ o : Nat → Except String Unit,
      expFail.run none true o = expFail.run none true failOutcomes :=
  ⟨rfl, rfl, fun _ => rfl⟩

/-- C3: counterexample.  For the pipeline `X: depends on Y; Y` declared
in the order `[X, Y]`, `run()` raises Python's `KeyError "Y"` — the bare
dict subscript `stage_to_id[d]` on line 75 — not the
`UnresolvedDependencyError` the claim names; no such error class exists
anywhere in the code. -/
theorem invalid_order_keyerror_counterexample :
    (expXY.run none true okOutcomes).result = .error (.keyError "Y") ∧
    isUnresolvedErr (expXY.run none true okOutcomes).result = false :=
  ⟨rfl, rfl⟩

/-- C3 (amended): for every pipeline whose declared order reaches a
stage with an immediate dependency not declared before it, `run()`
deterministically raises Python's `KeyError` naming a missing
dependency while processing the first such stage: that stage is never
dispatched (the handle table holds exactly the stages declared strictly
before it), the completion barrier is never invoked, and hence none of
that stage's work begins.  `run` is embedded as a pure function, so the
same input always yields this same error. -/
theorem invalid_order_raises_before_dispatch (exp : Experiment)
    (envOpt : Option Environment) (ri : Bool) (o : Nat → Except String Unit)
    (hnodup : (stageNames exp.pipeline).Nodup)
    (hbad : topoOk [] exp.pipeline = false) :
    ∃ k, ∃ hk : k < exp.pipeline.length, ∃ d,
      (exp.run envOpt ri o).result = .error (.keyError d) ∧
      d ∈ subPipelineDependencies (exp.pipeline.get ⟨k, hk⟩).2 ∧
      d ∉ stageNames (exp.pipeline.take k) ∧
      (exp.run envOpt ri o).table =
        withIdx (stageNames (exp.pipeline.take k)) 0 ∧
      noWaitEv (exp.run envOpt ri o).trace = true := by
  obtain ⟨k, hk, d, hd1, hd2, heq⟩ :=
    runLoop_topo_bad exp.reduce exp.cpus_per_trial exp.gpus_per_trial
      exp.pipeline []
      ⟨[], 0, if ri then [] else
        [.rayInit ((envOpt.getD ⟨exp.save_path, false⟩).debug)]⟩
      rfl rfl (by simpa using hnodup) hbad
  have hrun := run_loop_err_bridge exp envOpt ri o _ _ heq
  refine ⟨k, hk, d, ?_, hd1, by simpa using hd2, ?_, ?_⟩
  · rw [hrun]
  · rw [hrun]
    simp
  · rw [hrun]
    simp only [noWaitEv_append, noWaitEv_initTrace,
      noWaitEv_expectedEvents, Bool.and_self]

/-- C3 witness: the amended theorem applied to the concrete two-stage
pipeline declared `[X, Y]` with `X` depending on `Y`. -/
theorem invalid_order_raises_before_dispatch_witness :
    (stageNames expXY.pipeline).Nodup ∧
    topoOk [] expXY.pipeline = false ∧
    (∃ k, ∃ hk : k < expXY.pipeline.length, ∃ d,
      (expXY.run none true okOutcomes).result = .error (.keyError d) ∧
      d ∈ subPipelineDependencies (expXY.pipeline.get ⟨k, hk⟩).2 ∧
      d ∉ stageNames (expXY.pipeline.take k) ∧
      (expXY.run none true okOutcomes).table =
        withIdx (stageNames (expXY.pipeline.take k)) 0 ∧
      noWaitEv (expXY.run none true okOutcomes).trace = true) :=
  ⟨by decide, by decide,
    invalid_order_raises_before_dispatch expXY none true okOutcomes
      (by decide) (by decide)⟩

theorem expectedEvents_length (reduce cpus gpus : List (String × Nat))
    (seen : List String) (rest : List (String × Schema)) :
    (expectedEvents reduce cpus gpus seen rest).length = rest.length := by
  induction rest generalizing seen with
  | nil => rfl
  | cons p rest ih =>
    obtain ⟨name, schema⟩ := p
    simp [expectedEvents, ih (seen ++ [name])]

/-- C4: for every pipeline in valid topological declaration order (and
with the unique stage names a Python dict guarantees), `run()` succeeds;
the final `stage_to_id` table maps each stage name, in declaration
order, to exactly one handle — its declaration index; the trace is the
optional substrate bring-up, then one dispatch per stage in declaration
order whose `dependencies` argument is exactly the handles of that
stage's immediate dependencies in sub-pipeline order, then the single
barrier wait; and every dependency's handle was entered in the table at
a step strictly before the dependent stage's dispatch
(`indexOfStr names d < k`). -/
theorem topo_dispatch_receives_dependency_handles (exp : Experiment)
    (envOpt : Option Environment) (ri : Bool) (o : Nat → Except String Unit)
    (hnodup : (stageNames exp.pipeline).Nodup)
    (htopo : topoOk [] exp.pipeline = true) :
    (exp.run envOpt ri o).result = .ok () ∧
    (exp.run envOpt ri o).table = withIdx (stageNames exp.pipeline) 0 ∧
    (exp.run envOpt ri o).trace =
      (if ri then [] else
        [.rayInit ((envOpt.getD ⟨exp.save_path, false⟩).debug)]) ++
      exp.pipeline.map (fun p =>
        .dispatch (globalCall exp.reduce exp.cpus_per_trial
          exp.gpus_per_trial (stageNames exp.pipeline) p.1 p.2)) ++
      [.wait (List.range exp.pipeline.length) exp.pipeline.length] ∧
    ∀ k, ∀ hk : k < exp.pipeline.length,
      ∀ d ∈ subPipelineDependencies (exp.pipeline.get ⟨k, hk⟩).2,
        dictGet (exp.run envOpt ri o).table d =
          some (indexOfStr (stageNames exp.pipeline) d) ∧
        indexOfStr (stageNames exp.pipeline) d < k := by
  have hchar := runLoop_topo_char exp.reduce exp.cpus_per_trial
    exp.gpus_per_trial exp.pipeline []
    ⟨[], 0, if ri then [] else
      [.rayInit ((envOpt.getD ⟨exp.save_path, false⟩).debug)]⟩
    rfl rfl (by simpa using hnodup) htopo
  have hrun := run_loop_ok_bridge exp envOpt ri o _ hchar
  have htable : (exp.run envOpt ri o).table =
      withIdx (stageNames exp.pipeline) 0 := by
    rw [hrun]
    simp
  have hlen : (stageNames exp.pipeline).length = exp.pipeline.length := by
    simp [stageNames]
  refine ⟨by rw [hrun], htable, ?_, ?_⟩
  · rw [hrun, expectedEvents_eq_global exp.reduce exp.cpus_per_trial
      exp.gpus_per_trial exp.pipeline [] htopo]
    simp [withIdx_snd_zero, withIdx_length, stageNames, List.append_assoc]
  · intro k hk d hd
    have hdt : d ∈ (stageNames exp.pipeline).take k := by
      have := topoOk_deps_take exp.pipeline [] htopo k hk d hd
      simpa [stageNames, List.map_take] using this
    have hdm : d ∈ stageNames exp.pipeline := List.take_subset _ _ hdt
    constructor
    · rw [htable, dictGet_withIdx_mem _ _ _ hdm, Nat.zero_add]
    · exact indexOfStr_lt_of_mem_take _ _ _ hdt

/-- C4 witness: the theorem applied to the concrete valid pipeline
`A; B -> A; C -> A, B`. -/
theorem topo_dispatch_receives_dependency_handles_witness :
    (stageNames expABC.pipeline).Nodup ∧
    topoOk [] expABC.pipeline = true ∧
    ((expABC.run none true okOutcomes).result = .ok () ∧
    (expABC.run none true okOutcomes).table =
      withIdx (stageNames expABC.pipeline) 0 ∧
    (expABC.run none true okOutcomes).trace =
      (if true then [] else
        [.rayInit (((none : Option Environment)).getD
          ⟨expABC.save_path, false⟩).debug]) ++
      expABC.pipeline.map (fun p =>
        .dispatch (globalCall expABC.reduce expABC.cpus_per_trial
          expABC.gpus_per_trial (stageNames expABC.pipeline) p.1 p.2)) ++
      [.wait (List.range expABC.pipeline.length) expABC.pipeline.length] ∧
    ∀ k, ∀ hk : k < expABC.pipeline.length,
      ∀ d ∈ subPipelineDependencies (expABC.pipeline.get ⟨k, hk⟩).2,
        dictGet (expABC.run none true okOutcomes).table d =
          some (indexOfStr (stageNames expABC.pipeline) d) ∧
        indexOfStr (stageNames expABC.pipeline) d < k) :=
  ⟨by decide, by decide,
    topo_dispatch_receives_dependency_handles expABC none true okOutcomes
      (by decide) (by decide)⟩

/-- C5: for every valid pipeline, the completion barrier is entered only
after every stage has been dispatched: the trace is a wait-free prefix
holding exactly one dispatch per stage, followed by the single
`ray.wait` invoked on all dispatched handles with a required
resolved-count equal to the stage count, and the final table size equals
the stage count. -/
theorem barrier_after_full_dispatch (exp : Experiment)
    (envOpt : Option Environment) (ri : Bool) (o : Nat → Except String Unit)
    (hnodup : (stageNames exp.pipeline).Nodup)
    (htopo : topoOk [] exp.pipeline = true) :
    ∃ pre,
      (exp.run envOpt ri o).trace =
        pre ++ [.wait ((exp.run envOpt ri o).table.map Prod.snd)
          (exp.run envOpt ri o).table.length] ∧
      noWaitEv pre = true ∧
      (pre.filter isDispatchEv).length = exp.pipeline.length ∧
      (exp.run envOpt ri o).table.length = exp.pipeline.length := by
  have hchar := runLoop_topo_char exp.reduce exp.cpus_per_trial
    exp.gpus_per_trial exp.pipeline []
    ⟨[], 0, if ri then [] else
      [.rayInit ((envOpt.getD ⟨exp.save_path, false⟩).debug)]⟩
    rfl rfl (by simpa using hnodup) htopo
  have hrun := run_loop_ok_bridge exp envOpt ri o _ hchar
  have hlen : (stageNames exp.pipeline).length = exp.pipeline.length := by
    simp [stageNames]
  refine ⟨(if ri then [] else
      [.rayInit ((envOpt.getD ⟨exp.save_path, false⟩).debug)]) ++
    expectedEvents exp.reduce exp.cpus_per_trial exp.gpus_per_trial []
      exp.pipeline, ?_, ?_, ?_, ?_⟩
  · rw [hrun]
  · rw [noWaitEv_append, noWaitEv_initTrace, noWaitEv_expectedEvents]
    rfl
  · rw [List.filter_append]
    have h0 : List.filter isDispatchEv (if ri then [] else
        [Event.rayInit ((envOpt.getD ⟨exp.save_path, false⟩).debug)]) = [] := by
      cases ri <;> rfl
    have h1 : List.filter isDispatchEv
        (expectedEvents exp.reduce exp.cpus_per_trial exp.gpus_per_trial []
          exp.pipeline) =
        expectedEvents exp.reduce exp.cpus_per_trial exp.gpus_per_trial []
          exp.pipeline :=
      List.filter_eq_self.mpr (expectedEvents_all_dispatch _ _ _ _ _)
    rw [h0, h1, List.nil_append, expectedEvents_length]
  · rw [hrun]
    simp [withIdx_length, hlen]

/-- C5 witness: the theorem applied to the concrete valid pipeline
`A; B -> A; C -> A, B`. -/
theorem barrier_after_full_dispatch_witness :
    (stageNames expABC.pipeline).Nodup ∧
    topoOk [] expABC.pipeline = true ∧
    (∃ pre,
      (expABC.run none true okOutcomes).trace =
        pre ++ [.wait ((expABC.run none true okOutcomes).table.map Prod.snd)
          (expABC.run none true okOutcomes).table.length] ∧
      noWaitEv pre = true ∧
      (pre.filter isDispatchEv).length = expABC.pipeline.length ∧
      (expABC.run none true okOutcomes).table.length =
        expABC.pipeline.length) :=
  ⟨by decide, by decide,
    barrier_after_full_dispatch expABC none true okOutcomes
      (by decide) (by decide)⟩

/-- C6: in every execution of `run()`, on any input whatsoever, every
event of the trace except possibly the final one is not a wait: the
dispatch loop itself never awaits a handle, and the single suspension
point of the core is the completion-barrier call emitted after the loop
over all stages has finished (or no wait at all when the loop raises). -/
theorem dispatch_loop_never_awaits (exp : Experiment)
    (envOpt : Option Environment) (ri : Bool)
    (o : Nat → Except String Unit) :
    waitOnlyLast (exp.run envOpt ri o).trace = true := by
  cases hr : runLoop exp.reduce exp.cpus_per_trial exp.gpus_per_trial
      exp.pipeline
      ⟨[], 0, if ri then [] else
        [.rayInit ((envOpt.getD ⟨exp.save_path, false⟩).debug)]⟩ with
  | mk st res =>
    obtain ⟨es, h1, h2⟩ := runLoop_trace_events exp.reduce exp.cpus_per_trial
      exp.gpus_per_trial exp.pipeline
      ⟨[], 0, if ri then [] else
        [.rayInit ((envOpt.getD ⟨exp.save_path, false⟩).debug)]⟩
    rw [hr] at h1
    have hnw : ∀ x ∈ (if ri then [] else
        [Event.rayInit ((envOpt.getD ⟨exp.save_path, false⟩).debug)]) ++ es,
        isWaitEv x = false := by
      intro x hx
      rcases List.mem_append.mp hx with h | h
      · cases ri with
        | true => cases h
        | false =>
          cases h with
          | head => rfl
          | tail _ h0 => cases h0
      · exact not_wait_of_dispatch x (h2 x h)
    cases res with
    | error e =>
      rw [run_loop_err_bridge exp envOpt ri o st e hr]
      rw [show st.trace = _ from h1]
      exact waitOnlyLast_of_no_wait _ hnw
    | ok u =>
      cases u
      rw [run_loop_ok_bridge exp envOpt ri o st hr]
      rw [show st.trace = _ from h1]
      exact waitOnlyLast_append_single _ _ hnw

/-- C7: when the substrate is already initialized at entry
(`ray.is_initialized()` returns true), `run()` emits no `ray.init`
event at all — line 66 is guarded by line 65 — so a run on an
already-active substrate leaves the substrate's initialization state
unchanged. -/
theorem init_skipped_when_already_initialized (exp : Experiment)
    (envOpt : Option Environment) (o : Nat → Except String Unit) :
    ((exp.run envOpt true o).trace.all fun e => !isRayInitEv e) = true := by
  cases hr : runLoop exp.reduce exp.cpus_per_trial exp.gpus_per_trial
      exp.pipeline ⟨[], 0, []⟩ with
  | mk st res =>
    obtain ⟨es, h1, h2⟩ := runLoop_trace_events exp.reduce exp.cpus_per_trial
      exp.gpus_per_trial exp.pipeline ⟨[], 0, []⟩
    rw [hr] at h1
    have hni : ∀ x ∈ es, isRayInitEv x = false := fun x hx =>
      not_rayInit_of_dispatch x (h2 x hx)
    cases res with
    | error e =>
      rw [run_loop_err_bridge exp envOpt true o st e hr]
      rw [List.all_eq_true]
      intro x hx
      rw [show st.trace = _ from h1] at hx
      simp [hni x (by simpa using hx)]
    | ok u =>
      cases u
      rw [run_loop_ok_bridge exp envOpt true o st hr]
      rw [List.all_eq_true]
      intro x hx
      rcases List.mem_append.mp hx with h | h
      · rw [show st.trace = _ from h1] at h
        simp [hni x (by simpa using h)]
      · have : x = Event.wait (st.table.map Prod.snd) st.table.length := by
          cases h with
          | head => rfl
          | tail _ h0 => cases h0
        subst this
        rfl

/-- C8: constructing an `Experiment` with `pipeline`, `algorithm` and
`reduce` equal to `None` stores an empty mapping for each of those
fields, and running such an experiment dispatches no stage, leaves the
handle table empty, and invokes the completion barrier on an empty
handle set with a required resolved-count of zero before returning
successfully. -/
theorem none_defaults_and_empty_pipeline_barrier (n sp : String)
    (c g : Option (List (String × Nat))) (envOpt : Option Environment)
    (ri : Bool) (o : Nat → Except String Unit) :
    (Experiment.init n sp none none none c g).pipeline = [] ∧
    (Experiment.init n sp none none none c g).algorithm = [] ∧
    (Experiment.init n sp none none none c g).reduce = [] ∧
    ((Experiment.init n sp none none none c g).run envOpt ri o).result =
      .ok () ∧
    ((Experiment.init n sp none none none c g).run envOpt ri o).table = [] ∧
    ((Experiment.init n sp none none none c g).run envOpt ri o).trace =
      (if ri then [] else [.rayInit ((envOpt.getD ⟨sp, false⟩).debug)]) ++
        [.wait [] 0] :=
  ⟨rfl, rfl, rfl, rfl, rfl, rfl⟩

/-- C9: `run()` never assigns to an attribute of `self`: the experiment
object after any call of `run` — completing normally or raising — is the
experiment it was called on, every field included. -/
theorem run_leaves_experiment_unchanged (exp : Experiment)
    (envOpt : Option Environment) (ri : Bool)
    (o : Nat → Except String Unit) :
    (exp.run envOpt ri o).selfAfter = exp := by
  cases hr : runLoop exp.reduce exp.cpus_per_trial exp.gpus_per_trial
      exp.pipeline
      ⟨[], 0, if ri then [] else
        [.rayInit ((envOpt.getD ⟨exp.save_path, false⟩).debug)]⟩ with
  | mk st res =>
    cases res with
    | error e => rw [run_loop_err_bridge exp envOpt ri o st e hr]
    | ok u =>
      cases u
      rw [run_loop_ok_bridge exp envOpt ri o st hr]

/-- C10: `rel_to_abs_paths` operates on a copy (`d.copy()`, line 33) and
never writes the input dict; the returned dict has exactly the key set
of the input, in order; and every entry whose value is already absolute
(`os.path.isabs`) or names a non-existent path (`os.path.exists` false)
is returned unchanged. -/
theorem rel_to_abs_paths_keys_and_unchanged (fs : FileSystem)
    (d : List (String × String)) :
    (rel_to_abs_paths fs d).map Prod.fst = d.map Prod.fst ∧
    ∀ k v, (k, v) ∈ d → (fs.isabs v = true ∨ fs.pathExists v = false) →
      (k, v) ∈ rel_to_abs_paths fs d := by
  constructor
  · rw [rel_to_abs_paths, List.map_map]
    refine List.map_congr_left ?_
    intro kv _
    by_cases hc : fs.pathExists kv.2 && !fs.isabs kv.2 <;>
      simp [Function.comp, hc]
  · intro k v hm hcase
    have hcond : (fs.pathExists v && !fs.isabs v) = false := by
      rcases hcase with h | h <;> simp [h]
    have hmem := List.mem_map_of_mem
      (fun kv : String × String =>
        if fs.pathExists kv.2 && !fs.isabs kv.2 then (kv.1, fs.abspath kv.2)
        else kv) hm
    rw [rel_to_abs_paths]
    simpa [hcond] using hmem

/-- Filesystem oracle for the C10 witness: only the path `rel` exists,
only the path `/abs` is absolute. -/
def fsW : FileSystem :=
  ⟨fun s => s == "rel", fun s => s == "/abs", fun s => s⟩

/-- Input dictionary for the C10 witness. -/
def dW : List (String × String) :=
  [("a", "/abs"), ("b", "rel"), ("c", "missing")]

/-- C10 witness: the theorem applied to a concrete filesystem oracle and
dictionary, instantiated at the absolute-path entry `("a", "/abs")`. -/
theorem rel_to_abs_paths_keys_and_unchanged_witness :
    (("a", "/abs") ∈ dW ∧
      (fsW.isabs "/abs" = true ∨ fsW.pathExists "/abs" = false)) ∧
    (rel_to_abs_paths fsW dW).map Prod.fst = dW.map Prod.fst ∧
    ("a", "/abs") ∈ rel_to_abs_paths fsW dW :=
  ⟨⟨by decide, Or.inl (by decide)⟩,
    (rel_to_abs_paths_keys_and_unchanged fsW dW).1,
    (rel_to_abs_paths_keys_and_unchanged fsW dW).2 "a" "/abs" (by decide)
      (Or.inl (by decide))⟩

end Flambe
